import Mathlib

/-!
Verification of the nao-ai chat frontend (src/frontend/script.js) against its
specification. The JavaScript state and operations are shallowly embedded:
browser strings are Lean `String`s (or `List Char` where character-level
reasoning is needed), `localStorage` is a partial map, the awaited network
exchanges are explicit outcome values, and JS numbers are rationals.
-/

namespace NaoAI

/-- A reasoning payload attached to an assistant message: short preview and
expandable full text (script.js, sendMessage / createMessageElement). -/
structure Reasoning where
  short : String
  full : String
  deriving Repr, DecidableEq

/-- One entry of STATE.messages: addMessage pushes
role, content, reasoning, imageUrl, timestamp (script.js line 233).
The Date value is modelled as a natural clock reading. -/
structure Message where
  role : String
  content : String
  reasoning : Option Reasoning
  imageUrl : Option String
  timestamp : Nat
  deriving Repr, DecidableEq

/-- estimateTokens (script.js 1299-1301): Math.ceil(text.length / 4), the
exact division taken in ℚ. -/
def estimateTokens (text : String) : Nat := Nat.ceil ((text.length : ℚ) / 4)

/-- The token total computed by updateSessionStats (script.js 1479-1486):
a running sum of estimateTokens over STATE.messages. -/
def sessionTokens (msgs : List Message) : Nat :=
  msgs.foldl (fun acc m => acc + estimateTokens m.content) 0

/-- The client state touched by the chat interactions: the STATE fields, the
localStorage sessionId mirror, and the DOM pieces the claims mention (typing
indicator, send button, displayed statistics, welcome banner). -/
structure ChatState where
  isProcessing : Bool
  sendBtnDisabled : Bool
  messages : List Message
  typingShown : Bool
  sessionId : String
  storedSessionId : String
  inputValue : String
  currentImage : Option String
  imageType : Option String
  displayedMsgCount : Nat
  displayedTokens : Nat
  welcomeShown : Bool
  deriving Repr, DecidableEq

/-- updateSessionStats (script.js 1473-1487): writes the message count and
the token sum into the statistics display. -/
def updateSessionStats (st : ChatState) : ChatState :=
  { st with
    displayedMsgCount := st.messages.length
    displayedTokens := sessionTokens st.messages }

/-- addMessage as overridden at script.js 1490-1495: the original addMessage
(hide the welcome banner, append to the container, push onto STATE.messages,
script.js 220-241) followed by updateSessionStats. Text-to-speech is a
browser side effect with no bearing on the modelled state. -/
def addMessage (st : ChatState) (m : Message) : ChatState :=
  updateSessionStats { st with welcomeShown := false, messages := st.messages ++ [m] }

/-- generateSessionId (script.js 92-94): the Math.random token drawn by the
external random source is the argument. -/
def generateSessionId (token : String) : String := "session_" ++ token

/-- startNewChat (script.js 625-640): install and persist a fresh identifier,
drop the in-memory log, clear the container (which also removes any typing
indicator node) and show the welcome banner again. -/
def startNewChat (st : ChatState) (token : String) : ChatState :=
  let sid := generateSessionId token
  { st with
    sessionId := sid
    storedSessionId := sid
    messages := []
    typingShown := false
    welcomeShown := true }

/-- Ceiling of n / 4 over ℚ agrees with the rounded-up natural division. -/
theorem ceil_div_four (n : Nat) : Nat.ceil ((n : ℚ) / 4) = (n + 3) / 4 := by
  rcases Nat.eq_zero_or_pos n with h | h
  · subst h; norm_num
  · obtain ⟨k, hk⟩ : ∃ k, (n + 3) / 4 = k + 1 := ⟨(n + 3) / 4 - 1, by omega⟩
    rw [hk, Nat.ceil_eq_iff (Nat.succ_ne_zero k)]
    constructor
    · rw [Nat.succ_sub_one, lt_div_iff₀ (by norm_num : (0:ℚ) < 4)]
      exact_mod_cast (by omega : k * 4 < n)
    · rw [div_le_iff₀ (by norm_num : (0:ℚ) < 4)]
      exact_mod_cast (by omega : n ≤ (k + 1) * 4)

/-- The foldl of updateSessionStats is the sum of per-message estimates. -/
theorem sessionTokens_eq (msgs : List Message) :
    sessionTokens msgs = (msgs.map (fun m => (m.content.length + 3) / 4)).sum := by
  have key : ∀ (l : List Message) (a : Nat),
      l.foldl (fun acc m => acc + estimateTokens m.content) a
        = a + (l.map (fun m => (m.content.length + 3) / 4)).sum := by
    intro l
    induction l with
    | nil => intro a; simp
    | cons x xs ih =>
        intro a
        rw [List.foldl_cons, ih, List.map_cons, List.sum_cons]
        simp only [estimateTokens, ceil_div_four]
        omega
  simpa [sessionTokens] using key msgs 0

/-- C8: after every append the displayed message count equals the log's
length and the displayed token estimate is the sum over all messages of the
rounded-up quarter of the content length. -/
theorem addMessage_recomputes_stats (st : ChatState) (m : Message) :
    (addMessage st m).displayedMsgCount = (addMessage st m).messages.length ∧
    (addMessage st m).displayedTokens
      = ((addMessage st m).messages.map (fun x => (x.content.length + 3) / 4)).sum := by
  refine ⟨rfl, ?_⟩
  simp [addMessage, updateSessionStats, sessionTokens_eq]

/-- A concrete client state used by the concrete instantiations below. -/
def baseState : ChatState :=
  { isProcessing := false
    sendBtnDisabled := false
    messages := []
    typingShown := false
    sessionId := "session_abc"
    storedSessionId := "session_abc"
    inputValue := ""
    currentImage := none
    imageType := none
    displayedMsgCount := 0
    displayedTokens := 0
    welcomeShown := true }

/-- C4 counterexample: when the random draw reproduces the suffix of the
current identifier, startNewChat yields the same identifier again — nothing
in generateSessionId guarantees a different token. -/
theorem startNewChat_can_repeat_id :
    (startNewChat baseState "abc").sessionId = baseState.sessionId := by
  rfl

/-- C4 (amended): startNewChat always installs and persists the freshly
generated identifier and empties the in-memory log and visible transcript;
the identifier differs from the previous one whenever the random token does
not reproduce it (uniqueness rests on client-side randomness only). -/
theorem startNewChat_rotates (st : ChatState) (token : String)
    (h : st.sessionId ≠ "session_" ++ token) :
    (startNewChat st token).sessionId ≠ st.sessionId ∧
    (startNewChat st token).sessionId = "session_" ++ token ∧
    (startNewChat st token).storedSessionId = "session_" ++ token ∧
    (startNewChat st token).messages = [] := by
  refine ⟨?_, rfl, rfl, rfl⟩
  intro hh
  exact h (by simpa [startNewChat, generateSessionId] using hh.symm)

/-- Concrete instantiation of startNewChat_rotates. -/
theorem startNewChat_rotates_inst :
    baseState.sessionId ≠ "session_" ++ "xyz" ∧
    ((startNewChat baseState "xyz").sessionId ≠ baseState.sessionId ∧
     (startNewChat baseState "xyz").sessionId = "session_" ++ "xyz" ∧
     (startNewChat baseState "xyz").storedSessionId = "session_" ++ "xyz" ∧
     (startNewChat baseState "xyz").messages = []) :=
  ⟨by decide, startNewChat_rotates baseState "xyz" (by decide)⟩

/-- The CONFIG object (script.js 10-16) as a typed record; temperature is a
JS number, taken in ℚ. -/
structure Config where
  apiEndpoint : String
  model : String
  temperature : ℚ
  voiceOutput : Bool
  theme : String
  deriving Repr, DecidableEq

/-- The JSON body of the POST to /chat (script.js 322-329). -/
structure ChatRequest where
  message : String
  session_id : String
  model : String
  temperature : ℚ
  image_data : Option String
  image_type : Option String
  deriving Repr, DecidableEq

/-- The success payload of POST /chat (script.js 337-352): the final answer,
the reasoning pair, and an optional session identifier. -/
structure ChatReply where
  session_id : Option String
  final_answer : String
  short_reasoning : String
  full_reasoning : String
  deriving Repr, DecidableEq

/-- The outcome of the awaited network exchange inside sendMessage: a rejected
fetch, a non-ok response with its parsed detail (or an unparseable body, whose
json() call rejects), an ok response with an unparseable body, or an ok reply. -/
inductive SendOutcome where
  | netError (emsg : String)
  | httpError (detail : Option String)
  | httpErrorBadJson (emsg : String)
  | okBadJson (emsg : String)
  | ok (reply : ChatReply)
  deriving Repr, DecidableEq

/-- The JavaScript expression v || d for a string v: null / undefined and the
empty string are falsy. -/
def jsOrStr (v : Option String) (d : String) : String :=
  match v with
  | none => d
  | some s => if s = "" then d else s

/-- The error.message that reaches the catch block of sendMessage for each
failing outcome (none for a successful exchange): a thrown fetch or json()
rejection carries its own message, and a non-ok JSON body is rethrown as
error.detail || a generic text (script.js 332-335). -/
def failText : SendOutcome → Option String
  | .netError e => some e
  | .httpError d => some (jsOrStr d "Failed to get response")
  | .httpErrorBadJson e => some e
  | .okBadJson e => some e
  | .ok _ => none

/-- The synthetic in-transcript error content (script.js 359). -/
def sendFailMsg (e : String) : String :=
  "Sorry, I encountered an error: " ++ e ++ ". Please check if the backend server is running."

/-- clearImagePreview (script.js 538-544) restricted to the modelled state. -/
def clearImagePreview (st : ChatState) : ChatState :=
  { st with currentImage := none, imageType := none }

/-- The display URL built at script.js 300-303: null when imageData is falsy,
otherwise a data URL (a null imageType is interpolated as the text "null"). -/
def sendImageUrl (imageData imageType : Option String) : Option String :=
  match imageData with
  | some d => if d = "" then none else some ("data:" ++ imageType.getD "null" ++ ";base64," ++ d)
  | none => none

/-- sendMessage (script.js 293-366). The awaited exchange is supplied as an
explicit outcome; tUser and tBot are the clock readings of the two new Date()
calls. Returns the new state together with the /chat requests issued (the
sidebar refresh GET fired on success is not a /chat request). -/
def sendMessage (cfg : Config) (st : ChatState) (message : String)
    (imageData imageType : Option String) (tUser tBot : Nat)
    (o : SendOutcome) : ChatState × List ChatRequest :=
  if st.isProcessing then (st, [])
  else
    let st1 : ChatState := { st with isProcessing := true, sendBtnDisabled := true }
    let st2 := addMessage st1
      { role := "user", content := message, reasoning := none
        imageUrl := sendImageUrl imageData imageType, timestamp := tUser }
    let st3 : ChatState := { clearImagePreview st2 with inputValue := "", typingShown := true }
    let req : ChatRequest :=
      { message := message, session_id := st.sessionId, model := cfg.model
        temperature := cfg.temperature, image_data := imageData, image_type := imageType }
    let onFail : String → ChatState := fun e =>
      let st4 : ChatState := { st3 with typingShown := false }
      let st5 := addMessage st4
        { role := "bot", content := sendFailMsg e, reasoning := none
          imageUrl := none, timestamp := tBot }
      { st5 with isProcessing := false, sendBtnDisabled := false }
    match o with
    | .ok reply =>
        let st4 : ChatState := { st3 with typingShown := false }
        let st5 := addMessage st4
          { role := "bot", content := reply.final_answer
            reasoning := some ⟨reply.short_reasoning, reply.full_reasoning⟩
            imageUrl := none, timestamp := tBot }
        let st6 : ChatState :=
          match reply.session_id with
          | some sid => if sid = "" then st5 else { st5 with sessionId := sid, storedSessionId := sid }
          | none => st5
        ({ st6 with isProcessing := false, sendBtnDisabled := false }, [req])
    | .netError e => (onFail e, [req])
    | .httpError d => (onFail (jsOrStr d "Failed to get response"), [req])
    | .httpErrorBadJson e => (onFail e, [req])
    | .okBadJson e => (onFail e, [req])

/-- C1: while a send is in flight (the processing flag is set), a further
sendMessage call performs no state change, appends no message and issues no
request, whatever the outcome of the exchange would have been. -/
theorem sendMessage_single_flight (cfg : Config) (st : ChatState)
    (message : String) (imageData imageType : Option String) (tUser tBot : Nat)
    (o : SendOutcome) (h : st.isProcessing = true) :
    sendMessage cfg st message imageData imageType tUser tBot o = (st, []) := by
  simp [sendMessage, h]

/-- Concrete instantiation of sendMessage_single_flight. -/
theorem sendMessage_single_flight_inst :
    ({ baseState with isProcessing := true } : ChatState).isProcessing = true ∧
    sendMessage ⟨"http://localhost:8000", "deepseek/deepseek-chat", 7/10, false, "dark"⟩
      { baseState with isProcessing := true } "hello" none none 0 1 (.netError "down")
      = ({ baseState with isProcessing := true }, []) :=
  ⟨rfl, sendMessage_single_flight _ _ _ _ _ _ _ _ rfl⟩

/-- C2: every failing send removes the typing placeholder, appends exactly one
synthetic bot-role error message right after the optimistic user message
(which remains in the log), leaves the session identifier alone, and the
finally-style cleanup clears the processing flag — on every outcome. -/
theorem sendMessage_failure_recovery (cfg : Config) (st : ChatState)
    (message : String) (imageData imageType : Option String) (tUser tBot : Nat)
    (o : SendOutcome) (e : String)
    (hidle : st.isProcessing = false) (hfail : failText o = some e) :
    ((sendMessage cfg st message imageData imageType tUser tBot o).1.typingShown = false ∧
     (sendMessage cfg st message imageData imageType tUser tBot o).1.messages
       = st.messages ++
         [{ role := "user", content := message, reasoning := none
            imageUrl := sendImageUrl imageData imageType, timestamp := tUser },
          { role := "bot", content := sendFailMsg e, reasoning := none
            imageUrl := none, timestamp := tBot }] ∧
     (sendMessage cfg st message imageData imageType tUser tBot o).1.isProcessing = false ∧
     (sendMessage cfg st message imageData imageType tUser tBot o).1.sendBtnDisabled = false ∧
     (sendMessage cfg st message imageData imageType tUser tBot o).1.sessionId = st.sessionId) ∧
    ∀ o2, (sendMessage cfg st message imageData imageType tUser tBot o2).1.isProcessing = false := by
  constructor
  · cases o with
    | ok reply => simp [failText] at hfail
    | netError e2 =>
        obtain rfl : e2 = e := by simpa [failText] using hfail
        simp [sendMessage, hidle, addMessage, updateSessionStats, clearImagePreview]
    | httpError d =>
        obtain rfl : jsOrStr d "Failed to get response" = e := by simpa [failText] using hfail
        simp [sendMessage, hidle, addMessage, updateSessionStats, clearImagePreview]
    | httpErrorBadJson e2 =>
        obtain rfl : e2 = e := by simpa [failText] using hfail
        simp [sendMessage, hidle, addMessage, updateSessionStats, clearImagePreview]
    | okBadJson e2 =>
        obtain rfl : e2 = e := by simpa [failText] using hfail
        simp [sendMessage, hidle, addMessage, updateSessionStats, clearImagePreview]
  · intro o2
    cases o2 with
    | ok reply =>
        cases hsid : reply.session_id with
        | none => simp [sendMessage, hidle, addMessage, updateSessionStats, clearImagePreview, hsid]
        | some sid =>
            by_cases hs : sid = "" <;>
              simp [sendMessage, hidle, addMessage, updateSessionStats, clearImagePreview, hsid, hs]
    | netError e2 => simp [sendMessage, hidle, addMessage, updateSessionStats, clearImagePreview]
    | httpError d => simp [sendMessage, hidle, addMessage, updateSessionStats, clearImagePreview]
    | httpErrorBadJson e2 => simp [sendMessage, hidle, addMessage, updateSessionStats, clearImagePreview]
    | okBadJson e2 => simp [sendMessage, hidle, addMessage, updateSessionStats, clearImagePreview]

/-- Concrete instantiation of sendMessage_failure_recovery. -/
theorem sendMessage_failure_recovery_inst :
    baseState.isProcessing = false ∧
    failText (.netError "down") = some "down" ∧
    (((sendMessage ⟨"http://localhost:8000", "deepseek/deepseek-chat", 7/10, false, "dark"⟩
        baseState "hello" none none 0 1 (.netError "down")).1.typingShown = false ∧
      (sendMessage ⟨"http://localhost:8000", "deepseek/deepseek-chat", 7/10, false, "dark"⟩
        baseState "hello" none none 0 1 (.netError "down")).1.messages
        = baseState.messages ++
          [{ role := "user", content := "hello", reasoning := none
             imageUrl := sendImageUrl none none, timestamp := 0 },
           { role := "bot", content := sendFailMsg "down", reasoning := none
             imageUrl := none, timestamp := 1 }] ∧
      (sendMessage ⟨"http://localhost:8000", "deepseek/deepseek-chat", 7/10, false, "dark"⟩
        baseState "hello" none none 0 1 (.netError "down")).1.isProcessing = false ∧
      (sendMessage ⟨"http://localhost:8000", "deepseek/deepseek-chat", 7/10, false, "dark"⟩
        baseState "hello" none none 0 1 (.netError "down")).1.sendBtnDisabled = false ∧
      (sendMessage ⟨"http://localhost:8000", "deepseek/deepseek-chat", 7/10, false, "dark"⟩
        baseState "hello" none none 0 1 (.netError "down")).1.sessionId = baseState.sessionId) ∧
     ∀ o2, (sendMessage ⟨"http://localhost:8000", "deepseek/deepseek-chat", 7/10, false, "dark"⟩
        baseState "hello" none none 0 1 o2).1.isProcessing = false) :=
  ⟨rfl, rfl, sendMessage_failure_recovery _ _ _ _ _ _ _ _ _ rfl rfl⟩

/-- One message object of a GET /sessions/id response (script.js 949-951),
per the backend contract: role, content, optional reasoning. -/
structure LoadedMsg where
  role : String
  content : String
  reasoning : Option Reasoning
  deriving Repr, DecidableEq

/-- The parsed body of the /sessions/id response, as far as loadSession
inspects it: either a (truthy) messages array, or a body without one — for
instance the JSON error object of a non-ok status. -/
inductive LoadBody where
  | withMessages (l : List LoadedMsg)
  | noMessages
  deriving Repr, DecidableEq

/-- The outcome of the fetch inside loadSession: a rejected fetch, or a
response carrying its ok flag and its parsed JSON body (none when
response.json() rejects because the body is not JSON). -/
inductive FetchResult where
  | netError
  | response (ok : Bool) (body : Option LoadBody)
  deriving Repr, DecidableEq

/-- Whether the outcome carries a messages array, the only thing the code's
`if (data.messages)` test reacts to. -/
def FetchResult.hasMessages : FetchResult → Bool
  | .response _ (some (.withMessages _)) => true
  | _ => false

/-- loadSession (script.js 933-964). The response's ok flag is never
consulted, exactly as in the source: only the presence of data.messages
decides. Returns the new state and the toast raised, if any; now is the
clock reading used for the re-added messages. -/
def loadSession (st : ChatState) (sid : String) (now : Nat) :
    FetchResult → ChatState × Option String
  | .netError => (st, some "Error loading chat")
  | .response _ none => (st, some "Error loading chat")
  | .response _ (some .noMessages) => (st, none)
  | .response _ (some (.withMessages l)) =>
      let cleared : ChatState :=
        { st with sessionId := sid, storedSessionId := sid, messages := []
                  welcomeShown := false }
      let final := l.foldl
        (fun s m => addMessage s
          { role := m.role, content := m.content, reasoning := m.reasoning
            imageUrl := none, timestamp := now }) cleared
      (final, some "Chat loaded!")

/-- C3 counterexample: a failed load (response.ok = false) whose JSON error
body carries no messages field leaves the state unchanged but raises no
user-visible notice at all — the claim requires a notice on every failure. -/
theorem loadSession_failure_no_notice :
    loadSession baseState "s1" 0 (.response false (some .noMessages))
      = (baseState, none) := rfl

/-- C3 (amended): every loadSession call that does not receive a messages
array leaves the session state completely unchanged (no partial update), and
a user-visible error notice is raised exactly when the fetch or the JSON
parse throws — a response that parses to JSON without a messages field is
ignored silently, its HTTP status notwithstanding. -/
theorem loadSession_failure_atomic (st : ChatState) (sid : String) (now : Nat)
    (r : FetchResult) (h : r.hasMessages = false) :
    (loadSession st sid now r).1 = st ∧
    ((loadSession st sid now r).2 = none ↔
      ∃ ok, r = .response ok (some .noMessages)) := by
  cases r with
  | netError =>
      refine ⟨rfl, by simp [loadSession]⟩
  | response ok body =>
      cases body with
      | none => exact ⟨rfl, by simp [loadSession]⟩
      | some b =>
          cases b with
          | noMessages => exact ⟨rfl, by simp [loadSession]⟩
          | withMessages l => simp [FetchResult.hasMessages] at h

/-- Concrete instantiation of loadSession_failure_atomic. -/
theorem loadSession_failure_atomic_inst :
    FetchResult.netError.hasMessages = false ∧
    ((loadSession baseState "s1" 0 .netError).1 = baseState ∧
     ((loadSession baseState "s1" 0 .netError).2 = none ↔
       ∃ ok, FetchResult.netError = .response ok (some .noMessages))) :=
  ⟨rfl, loadSession_failure_atomic baseState "s1" 0 .netError rfl⟩

/-- c repeated n times, the model of the JS repeat call. -/
def repeatChar (c : Char) (n : Nat) : String := String.mk (List.replicate n c)

/-- The fixed header of exportChat (script.js 557-559); nowText models the
toLocaleString() of the current date. -/
def textHeader (nowText : String) : String :=
  "Nao AI - Chat Export\n" ++ ("Generated: " ++ nowText ++ "\n") ++ (repeatChar '=' 50 ++ "\n\n")

/-- The "You" / "AI" label (script.js 563). -/
def exportRole (role : String) : String := if role = "user" then "You" else "AI"

/-- The block the plain-text export devotes to one message (script.js
561-569): time and role label, the content, the short reasoning when present,
then the separator line. fmtTime models the Intl time formatter. -/
def textEntry (fmtTime : Nat → String) (m : Message) : String :=
  "[" ++ fmtTime m.timestamp ++ "] " ++ exportRole m.role ++ ":\n" ++ m.content ++ "\n"
    ++ (match m.reasoning with
        | some r => "\nReasoning: " ++ r.short ++ "\n"
        | none => "")
    ++ ("\n" ++ repeatChar '-' 30 ++ "\n\n")

/-- exportChat (script.js 550-583): none models the early "No messages to
export" return; otherwise the accumulated content string of the downloaded
text file, built by the forEach +=. -/
def exportChat (fmtTime : Nat → String) (nowText : String)
    (msgs : List Message) : Option String :=
  if msgs.length = 0 then none
  else some (msgs.foldl
    (fun content msg =>
      let content := content ++
        ("[" ++ fmtTime msg.timestamp ++ "] " ++ exportRole msg.role ++ ":\n"
          ++ msg.content ++ "\n")
      let content := content ++
        (match msg.reasoning with
         | some r => "\nReasoning: " ++ r.short ++ "\n"
         | none => "")
      content ++ ("\n" ++ repeatChar '-' 30 ++ "\n\n"))
    (textHeader nowText))

/-- The Markdown label (script.js 1362). -/
def mdRole (role : String) : String := if role = "user" then "**You**" else "**AI**"

/-- The fixed header of the Markdown export (script.js 1360). -/
def mdHeader (nowText : String) : String :=
  "# AI Chatbot Export\n\n**Date:** " ++ nowText ++ "\n\n---\n\n"

/-- The block the Markdown export devotes to one message (script.js 1361-1364). -/
def mdEntry (m : Message) : String :=
  mdRole m.role ++ (":\n\n" ++ m.content ++ "\n\n---\n\n")

/-- The exportMd click handler (script.js 1359-1373): the content written to
the .md blob. -/
def exportMarkdown (nowText : String) (msgs : List Message) : String :=
  msgs.foldl
    (fun content msg => content ++ (mdRole msg.role ++ (":\n\n" ++ msg.content ++ "\n\n---\n\n")))
    (mdHeader nowText)

/-- Concatenation of a list of strings, in order. -/
def concatStrings : List String → String
  | [] => ""
  | s :: rest => s ++ concatStrings rest

/-- String concatenation is associative. -/
theorem strAppend_assoc (a b c : String) : a ++ b ++ c = a ++ (b ++ c) :=
  String.append_assoc a b c

/-- A += style foldl over messages is the header followed by the per-message
strings in insertion order. -/
theorem foldl_append_concat (f : Message → String) (msgs : List Message)
    (init : String) :
    msgs.foldl (fun acc m => acc ++ f m) init = init ++ concatStrings (msgs.map f) := by
  induction msgs generalizing init with
  | nil =>
      show init = init ++ ""
      exact (String.append_empty init).symm
  | cons x xs ih =>
      show xs.foldl (fun acc m => acc ++ f m) (init ++ f x)
        = init ++ concatStrings (f x :: xs.map f)
      rw [ih, concatStrings, strAppend_assoc]

/-- C5: both the plain-text and the Markdown export are the fixed header
followed by one block per message, in insertion order; each block carries the
message's role label and its content (and, in the plain-text block, the short
reasoning when the message has one), so every content appears exactly once. -/
theorem export_complete_ordered (fmtTime : Nat → String) (nowText : String)
    (msgs : List Message) (h : msgs ≠ []) :
    exportChat fmtTime nowText msgs
      = some (textHeader nowText ++ concatStrings (msgs.map (textEntry fmtTime))) ∧
    exportMarkdown nowText msgs
      = mdHeader nowText ++ concatStrings (msgs.map mdEntry) := by
  constructor
  · have hne : msgs.length ≠ 0 := by simpa using fun hh => h (List.length_eq_zero.mp hh)
    rw [exportChat, if_neg hne]
    congr 1
    have hbody : (fun (content : String) (msg : Message) =>
        let content := content ++
          ("[" ++ fmtTime msg.timestamp ++ "] " ++ exportRole msg.role ++ ":\n"
            ++ msg.content ++ "\n")
        let content := content ++
          (match msg.reasoning with
           | some r => "\nReasoning: " ++ r.short ++ "\n"
           | none => "")
        content ++ ("\n" ++ repeatChar '-' 30 ++ "\n\n"))
        = fun (acc : String) (m : Message) => acc ++ textEntry fmtTime m := by
      funext acc m
      simp only [textEntry, strAppend_assoc]
    rw [hbody, foldl_append_concat]
  · rw [exportMarkdown]
    have hbody : (fun (content : String) (msg : Message) =>
        content ++ (mdRole msg.role ++ (":\n\n" ++ msg.content ++ "\n\n---\n\n")))
        = fun (acc : String) (m : Message) => acc ++ mdEntry m := by
      funext acc m
      simp only [mdEntry]
    rw [hbody, foldl_append_concat]

/-- Concrete instantiation of export_complete_ordered. -/
theorem export_complete_ordered_inst :
    (([{ role := "user", content := "hi", reasoning := none
         imageUrl := none, timestamp := 0 }] : List Message) ≠ []) ∧
    (exportChat (fun _ => "t") "now"
        [{ role := "user", content := "hi", reasoning := none
           imageUrl := none, timestamp := 0 }]
      = some (textHeader "now" ++ concatStrings
          ([{ role := "user", content := "hi", reasoning := none
              imageUrl := none, timestamp := 0 }].map (textEntry (fun _ => "t")))) ∧
     exportMarkdown "now"
        [{ role := "user", content := "hi", reasoning := none
           imageUrl := none, timestamp := 0 }]
      = mdHeader "now" ++ concatStrings
          ([{ role := "user", content := "hi", reasoning := none
              imageUrl := none, timestamp := 0 }].map mdEntry)) :=
  ⟨List.cons_ne_nil _ _,
   export_complete_ordered (fun _ => "t") "now" _ (List.cons_ne_nil _ _)⟩

/-- The numeric value of a list of decimal digit characters. -/
def digitsVal (l : List Char) : Nat :=
  l.foldl (fun acc c => 10 * acc + (c.toNat - 48)) 0

/-- The whitespace parseFloat skips before the number. -/
def isJsWs (c : Char) : Bool :=
  c == ' ' || c == '\t' || c == '\n' || c == '\r' || c == '\x0b' || c == '\x0c'

/-- Model of the parseFloat browser builtin on the persisted settings strings:
optional leading whitespace, optional sign, decimal digits with an optional
fractional part; none models NaN. (Exponents and Infinity lie outside the
grammar of stored temperatures and are not modelled.) -/
def parseFloatStr (s : String) : Option ℚ :=
  let l := s.data.dropWhile isJsWs
  let sign : ℚ := match l with | '-' :: _ => -1 | _ => 1
  let l1 := match l with | '-' :: r => r | '+' :: r => r | _ => l
  let ip := l1.takeWhile Char.isDigit
  let l2 := l1.drop ip.length
  let fp := match l2 with | '.' :: r => r.takeWhile Char.isDigit | _ => []
  if ip.isEmpty && fp.isEmpty then none
  else some (sign * ((digitsVal ip : ℚ) + (digitsVal fp : ℚ) / (10 : ℚ) ^ fp.length))

/-- parseFloat applied to a localStorage read: a missing key reads as null,
which parseFloat coerces to the string "null" (NaN). -/
def jsParseFloat (v : Option String) : Option ℚ := parseFloatStr (v.getD "null")

/-- The JavaScript expression v || d for a parsed number v: NaN and 0 are
falsy, so both fall back. -/
def jsOrNum (v : Option ℚ) (d : ℚ) : ℚ :=
  match v with
  | none => d
  | some q => if q = 0 then d else q

/-- CONFIG as initialized at script.js 10-16: each field read from
localStorage with a || fallback to its hard-coded default (=== 'true' for
voiceOutput). g models localStorage.getItem. -/
def loadConfig (g : String → Option String) : Config :=
  { apiEndpoint := jsOrStr (g "apiEndpoint") "http://localhost:8000"
    model := jsOrStr (g "model") "deepseek/deepseek-chat"
    temperature := jsOrNum (jsParseFloat (g "temperature")) (7/10)
    voiceOutput := g "voiceOutput" == some "true"
    theme := jsOrStr (g "theme") "dark" }

/-- The storage of the C6 counterexample: a persisted temperature of "0". -/
def storeTempZero : String → Option String :=
  fun k => if k = "temperature" then some "0" else none

/-- C6 counterexample: the stored temperature "0" parses to the perfectly
valid number 0, yet loadConfig replaces it by the default 0.7 — the || chain
treats the parsed 0 as falsy, so not every stored valid value is preserved. -/
theorem loadConfig_drops_zero_temperature :
    parseFloatStr "0" = some 0 ∧ (loadConfig storeTempZero).temperature = 7/10 := by
  have h0 : parseFloatStr "0"
      = some ((1 : ℚ) * (((0 : ℕ) : ℚ) + ((0 : ℕ) : ℚ) / (10 : ℚ) ^ (0 : ℕ))) := rfl
  have h1 : parseFloatStr "0" = some 0 := by rw [h0]; norm_num
  refine ⟨h1, ?_⟩
  have h2 : (loadConfig storeTempZero).temperature
      = jsOrNum (parseFloatStr "0") (7/10) := rfl
  rw [h2, h1]
  show (if (0 : ℚ) = 0 then (7/10 : ℚ) else 0) = 7/10
  simp

/-- C6 (amended): each field independently falls back to its hard-coded
default when the persisted value is missing or malformed (empty string,
unparseable number, anything but 'true' for the voice flag), and stored valid
values are preserved — except that a temperature parsing to 0 also falls back
to 0.7, because the || fallback treats 0 as falsy. -/
theorem loadConfig_fields (g : String → Option String) :
    ((g "apiEndpoint" = none ∨ g "apiEndpoint" = some "") →
      (loadConfig g).apiEndpoint = "http://localhost:8000") ∧
    (∀ s, s ≠ "" → g "apiEndpoint" = some s → (loadConfig g).apiEndpoint = s) ∧
    ((g "model" = none ∨ g "model" = some "") →
      (loadConfig g).model = "deepseek/deepseek-chat") ∧
    (∀ s, s ≠ "" → g "model" = some s → (loadConfig g).model = s) ∧
    (jsParseFloat (g "temperature") = none → (loadConfig g).temperature = 7/10) ∧
    (∀ q, jsParseFloat (g "temperature") = some q → q ≠ 0 →
      (loadConfig g).temperature = q) ∧
    (jsParseFloat (g "temperature") = some 0 → (loadConfig g).temperature = 7/10) ∧
    ((loadConfig g).voiceOutput = true ↔ g "voiceOutput" = some "true") ∧
    ((g "theme" = none ∨ g "theme" = some "") → (loadConfig g).theme = "dark") ∧
    (∀ s, s ≠ "" → g "theme" = some s → (loadConfig g).theme = s) := by
  refine ⟨?_, ?_, ?_, ?_, ?_, ?_, ?_, ?_, ?_, ?_⟩
  · rintro (h | h) <;> simp [loadConfig, jsOrStr, h]
  · intro s hs h; simp [loadConfig, jsOrStr, h, hs]
  · rintro (h | h) <;> simp [loadConfig, jsOrStr, h]
  · intro s hs h; simp [loadConfig, jsOrStr, h, hs]
  · intro h; simp [loadConfig, jsOrNum, h]
  · intro q h hq; simp [loadConfig, jsOrNum, h, hq]
  · intro h; simp [loadConfig, jsOrNum, h]
  · simp [loadConfig, beq_iff_eq]
  · rintro (h | h) <;> simp [loadConfig, jsOrStr, h]
  · intro s hs h; simp [loadConfig, jsOrStr, h, hs]

/-- The storage of the concrete loadConfig instantiation. -/
def storeSample : String → Option String :=
  fun k =>
    if k = "temperature" then some "1.5"
    else if k = "model" then some "m1" else none

/-- Concrete instantiation of loadConfig_fields. -/
theorem loadConfig_fields_inst :
    (loadConfig storeSample).temperature = 3/2 ∧
    (loadConfig storeSample).apiEndpoint = "http://localhost:8000" ∧
    (loadConfig storeSample).model = "m1" := by
  have h := loadConfig_fields storeSample
  have hp : jsParseFloat (storeSample "temperature")
      = some ((1 : ℚ) * (((1 : ℕ) : ℚ) + ((5 : ℕ) : ℚ) / (10 : ℚ) ^ (1 : ℕ))) := rfl
  have hp2 : jsParseFloat (storeSample "temperature") = some (3/2) := by
    rw [hp]; norm_num
  refine ⟨h.2.2.2.2.2.1 (3/2) hp2 (by norm_num),
          h.1 (Or.inl rfl),
          h.2.2.2.1 "m1" (by decide) rfl⟩

/-- A JSON value as produced by JSON.parse. -/
inductive JValue where
  | null
  | bool (b : Bool)
  | num (q : ℚ)
  | str (s : String)
  | arr (elems : List JValue)
  | obj (fields : List (String × JValue))

/-- Property access v.key: none models undefined (non-objects have no own
string-keyed fields among the values a backup carries). -/
def jget (v : JValue) (key : String) : Option JValue :=
  match v with
  | .obj fields => fields.lookup key
  | _ => none

/-- JavaScript truthiness of a possibly-undefined parsed value. -/
def jsTruthy : Option JValue → Bool
  | none => false
  | some .null => false
  | some (.bool b) => b
  | some (.num q) => !(q == 0)
  | some (.str s) => !(s == "")
  | some (.arr _) => true
  | some (.obj _) => true

/-- The state the restore handler can touch: CONFIG viewed as the string-keyed
object it is, STATE.sessionId and STATE.messages as raw parsed values, and the
localStorage contents. setItem coerces values to strings; the coercion is
irrelevant to the claims and the parsed value is kept. -/
structure RestoreState where
  config : List (String × JValue)
  sessionId : Option JValue
  messages : JValue
  store : List (String × JValue)

/-- Overwrite or add one key in a string-keyed object. -/
def setKey (l : List (String × JValue)) (k : String) (v : JValue) :
    List (String × JValue) :=
  if l.any (fun p => p.1 == k) then
    l.map (fun p => if p.1 == k then (k, v) else p)
  else l ++ [(k, v)]

/-- Object.assign(target, source) on parsed values: the own fields of an
object source overwrite or extend the target in order; a primitive source
contributes nothing (the persisted settings carry no indexed strings). -/
def objAssign (target : List (String × JValue)) (source : JValue) :
    List (String × JValue) :=
  match source with
  | .obj fields => fields.foldl (fun acc kv => setKey acc kv.1 kv.2) target
  | _ => target

/-- The accepting branch of the restore handler (script.js 1410-1420):
Object.assign onto CONFIG, the optional state block (messages defaulting to
an empty array), and the localStorage snapshot replayed through setItem. -/
def applyBackup (st : RestoreState) (backup : JValue) : RestoreState :=
  let cfg := objAssign st.config ((jget backup "config").getD .null)
  let stateData :=
    match jget backup "state" with
    | some stv =>
        if jsTruthy (some stv) then
          (jget stv "sessionId",
           match jget stv "messages" with
           | some m => if jsTruthy (some m) then m else JValue.arr []
           | none => JValue.arr [])
        else (st.sessionId, st.messages)
    | none => (st.sessionId, st.messages)
  let store :=
    match jget backup "localStorage" with
    | some ls =>
        if jsTruthy (some ls) then
          match ls with
          | .obj fields => fields.foldl (fun acc kv => setKey acc kv.1 kv.2) st.store
          | _ => st.store
        else st.store
    | none => st.store
  { config := cfg, sessionId := stateData.1, messages := stateData.2, store := store }

/-- The restoreFile change handler (script.js 1402-1432): parsed is the result
of JSON.parse on the uploaded file (none when parsing threw; a parsed null
also lands in the catch, since accessing .version on null throws). Returns
the new state and the toast text. -/
def restoreHandler (st : RestoreState) (parsed : Option JValue) :
    RestoreState × String :=
  match parsed with
  | none => (st, "Error reading backup file")
  | some .null => (st, "Error reading backup file")
  | some backup =>
      if jsTruthy (jget backup "version") && jsTruthy (jget backup "config") then
        (applyBackup st backup, "Backup restored! Reloading...")
      else (st, "Invalid backup file")

/-- C7: a backup whose parse lacks the version field or the config field is
rejected with a notice and leaves settings, session state and persisted
storage completely unchanged; an unparseable backup file likewise. -/
theorem restore_rejects_invalid (st : RestoreState) (backup : JValue)
    (h : jget backup "version" = none ∨ jget backup "config" = none) :
    (restoreHandler st (some backup)).1 = st ∧
    ((restoreHandler st (some backup)).2 = "Invalid backup file" ∨
     (restoreHandler st (some backup)).2 = "Error reading backup file") ∧
    restoreHandler st none = (st, "Error reading backup file") := by
  have hcond : ∀ (b : JValue), b ≠ .null →
      (jget b "version" = none ∨ jget b "config" = none) →
      restoreHandler st (some b) = (st, "Invalid backup file") := by
    intro b hb hnone
    have hfalse : (jsTruthy (jget b "version") && jsTruthy (jget b "config")) = false := by
      rcases hnone with hv | hc
      · rw [hv]; simp [jsTruthy]
      · rw [hc]; simp [jsTruthy]
    cases b with
    | null => exact absurd rfl hb
    | bool b2 => simp [restoreHandler, hfalse]
    | num q => simp [restoreHandler, hfalse]
    | str s => simp [restoreHandler, hfalse]
    | arr l => simp [restoreHandler, hfalse]
    | obj fields => simp [restoreHandler, hfalse]
  by_cases hb : backup = .null
  · subst hb
    exact ⟨rfl, Or.inr rfl, rfl⟩
  · have := hcond backup hb h
    rw [this]
    exact ⟨rfl, Or.inl rfl, rfl⟩

/-- The rejected backup of the concrete instantiation: it has a config field
but no version field. -/
def backupNoVersion : JValue := .obj [("config", .obj [])]

/-- The state of the concrete restore instantiation. -/
def restoreState0 : RestoreState :=
  { config := [("model", .str "m1")]
    sessionId := some (.str "session_abc")
    messages := .arr []
    store := [("model", .str "m1")] }

/-- Concrete instantiation of restore_rejects_invalid. -/
theorem restore_rejects_invalid_inst :
    (jget backupNoVersion "version" = none ∨ jget backupNoVersion "config" = none) ∧
    ((restoreHandler restoreState0 (some backupNoVersion)).1 = restoreState0 ∧
     ((restoreHandler restoreState0 (some backupNoVersion)).2 = "Invalid backup file" ∨
      (restoreHandler restoreState0 (some backupNoVersion)).2 = "Error reading backup file") ∧
     restoreHandler restoreState0 none = (restoreState0, "Error reading backup file")) :=
  ⟨Or.inl rfl, restore_rejects_invalid restoreState0 backupNoVersion (Or.inl rfl)⟩

/-- A file as handleImageUpload sees it: its MIME type, its byte size, and the
data URL the FileReader produces from it. -/
structure ImgFile where
  mime : String
  size : Nat
  dataUrl : String
  deriving Repr, DecidableEq

/-- The pending-image part of STATE plus the preview element. -/
structure ImgState where
  currentImage : Option String
  imageType : Option String
  previewShown : Bool
  deriving Repr, DecidableEq

/-- The accepted MIME types (script.js 515). -/
def validTypes : List String := ["image/jpeg", "image/png", "image/gif", "image/webp"]

/-- result.split(',')[1]: the text between the first comma and the second
comma or the end; undefined (none) when the data URL has no comma. -/
def splitCommaSecond (s : String) : Option String :=
  if s.data.any (fun c => c == ',') then
    some (String.mk (((s.data.dropWhile (fun c => !(c == ','))).drop 1).takeWhile
      (fun c => !(c == ','))))
  else none

/-- handleImageUpload (script.js 512-536). The FileReader onload completion is
taken as part of the call (a reader failure would leave the state unchanged,
which only strengthens the rejection property). Returns the new pending-image
state and the error toast, if any. -/
def handleImageUpload (st : ImgState) (file : Option ImgFile) :
    ImgState × Option String :=
  match file with
  | none => (st, none)
  | some f =>
      if !(validTypes.contains f.mime) then
        (st, some "Please upload a valid image (JPEG, PNG, GIF, WebP)")
      else if f.size > 10 * 1024 * 1024 then
        (st, some "Image too large. Maximum size is 10MB")
      else
        ({ currentImage := splitCommaSecond f.dataUrl
           imageType := some f.mime
           previewShown := true }, none)

/-- C9: a file passes without an error toast exactly when its MIME type is
one of the four accepted ones and its size is at most 10 * 1024 * 1024 bytes;
every rejected file produces an error toast and leaves the pending image
state (currentImage, imageType) unchanged. -/
theorem handleImageUpload_validates (st : ImgState) (f : ImgFile) :
    ((handleImageUpload st (some f)).2 = none ↔
      (f.mime ∈ validTypes ∧ f.size ≤ 10 * 1024 * 1024)) ∧
    ((f.mime ∉ validTypes ∨ f.size > 10 * 1024 * 1024) →
      (handleImageUpload st (some f)).1 = st ∧
      (handleImageUpload st (some f)).2 ≠ none) := by
  have heq : handleImageUpload st (some f) =
      if f.mime ∈ validTypes then
        if 10 * 1024 * 1024 < f.size then
          (st, some "Image too large. Maximum size is 10MB")
        else
          ({ currentImage := splitCommaSecond f.dataUrl, imageType := some f.mime
             previewShown := true }, none)
      else (st, some "Please upload a valid image (JPEG, PNG, GIF, WebP)") := by
    simp [handleImageUpload]
  rw [heq]
  by_cases hm : f.mime ∈ validTypes
  · by_cases hs : 10 * 1024 * 1024 < f.size
    · rw [if_pos hm, if_pos hs]
      refine ⟨by simp; omega, fun _ => ⟨rfl, by simp⟩⟩
    · rw [if_pos hm, if_neg hs]
      refine ⟨by simp [hm]; omega, ?_⟩
      rintro (hc | hc)
      · exact absurd hm hc
      · omega
  · rw [if_neg hm]
    exact ⟨by simp [hm], fun _ => ⟨rfl, by simp⟩⟩

/-- Concrete instantiation of handleImageUpload_validates: an html file is
rejected with a toast and without touching the pending image state. -/
theorem handleImageUpload_validates_inst :
    ("text/html" ∉ validTypes ∨ 5 > 10 * 1024 * 1024) ∧
    ((handleImageUpload ⟨none, none, false⟩ (some ⟨"text/html", 5, "x"⟩)).1
        = ⟨none, none, false⟩ ∧
     (handleImageUpload ⟨none, none, false⟩ (some ⟨"text/html", 5, "x"⟩)).2 ≠ none) :=
  ⟨Or.inl (by decide),
   (handleImageUpload_validates ⟨none, none, false⟩ ⟨"text/html", 5, "x"⟩).2
     (Or.inl (by decide))⟩

/-- The backtick character, written by code point. -/
def tick : Char := '\x60'

/-- JS regex \w: ASCII letters, digits and underscore. -/
def isWordChar (c : Char) : Bool := c.isAlphanum || c == '_'

/-- escapeHtml (script.js 104-108): the browser serializes the text node,
escaping the three markup characters. -/
def escapeHtml : List Char → List Char
  | [] => []
  | c :: rest =>
      (if c == '&' then "&amp;".data
       else if c == '<' then "&lt;".data
       else if c == '>' then "&gt;".data
       else [c]) ++ escapeHtml rest

/-- Split at the first occurrence of three consecutive backticks: the text
before the fence and the text after it (the lazy capture of the code-block
regex takes exactly the text before the nearest closing fence). -/
def findFence : List Char → Option (List Char × List Char)
  | [] => none
  | c :: rest =>
      match rest with
      | c2 :: c3 :: rest3 =>
          if c == tick && c2 == tick && c3 == tick then some ([], rest3)
          else
            match findFence rest with
            | some (pre, post) => some (c :: pre, post)
            | none => none
      | _ => none

/-- findFence really splits its input at a fence. -/
theorem findFence_spec (l : List Char) :
    ∀ pre post, findFence l = some (pre, post) →
      l = pre ++ tick :: tick :: tick :: post := by
  induction l with
  | nil => intro pre post h; simp [findFence] at h
  | cons c rest ih =>
      intro pre post h
      cases rest with
      | nil => simp [findFence] at h
      | cons c2 rest2 =>
          cases rest2 with
          | nil => simp [findFence] at h
          | cons c3 rest3 =>
              rw [findFence] at h
              cases hcond : (c == tick && c2 == tick && c3 == tick) with
              | true =>
                  rw [hcond, if_pos rfl] at h
                  obtain ⟨rfl, rfl⟩ := Prod.mk.injEq .. ▸ Option.some.injEq .. ▸ h
                  obtain ⟨⟨h1, h2⟩, h3⟩ : (c = tick ∧ c2 = tick) ∧ c3 = tick := by
                    simpa [Bool.and_eq_true, beq_iff_eq] using hcond
                  subst h1; subst h2; subst h3
                  rfl
              | false =>
                  rw [hcond, if_neg (by simp)] at h
                  cases hrec : findFence (c2 :: c3 :: rest3) with
                  | none => rw [hrec] at h; exact absurd h (by simp)
                  | some pr =>
                      obtain ⟨pre2, post2⟩ := pr
                      rw [hrec] at h
                      obtain ⟨rfl, rfl⟩ := Prod.mk.injEq .. ▸ Option.some.injEq .. ▸ h
                      have := ih pre2 post2 hrec
                      simp [this]

/-- The whitespace removed by String.trim. -/
def isTrimWs (c : Char) : Bool :=
  c == ' ' || c == '\t' || c == '\n' || c == '\r' || c == '\x0b' || c == '\x0c'

/-- code.trim() (script.js 202). -/
def trimList (l : List Char) : List Char :=
  ((l.dropWhile isTrimWs).reverse.dropWhile isTrimWs).reverse

/-- The pre/code opening tag carrying its language word. -/
def preOpen (lang : List Char) : List Char :=
  "<pre><code class=\"language-".data ++ lang ++ "\">".data

/-- Negation of being a backtick. -/
def ntick (c : Char) : Bool := !(c == tick)

/-- Negation of being an asterisk. -/
def nstar (c : Char) : Bool := !(c == '*')

/-- The code-block pass (script.js 201-203): at a fence, an optional language
word must be followed by a newline and a closing fence; the trimmed body is
wrapped in pre/code tags with the language (or "text"). When the pattern does
not complete, the scanner advances one character, as the regex engine does. -/
def codeBlockPass : List Char → List Char
  | [] => []
  | c :: rest =>
      if h : c == tick ∧ rest.head? = some tick ∧ rest.tail.head? = some tick ∧
          (rest.tail.tail.dropWhile isWordChar).head? = some '\n' ∧
          (findFence (rest.tail.tail.dropWhile isWordChar).tail).isSome then
        preOpen (if (rest.tail.tail.takeWhile isWordChar).isEmpty then "text".data
                 else rest.tail.tail.takeWhile isWordChar)
          ++ trimList ((findFence (rest.tail.tail.dropWhile isWordChar).tail).get h.2.2.2.2).1
          ++ "</code></pre>".data
          ++ codeBlockPass ((findFence (rest.tail.tail.dropWhile isWordChar).tail).get h.2.2.2.2).2
      else c :: codeBlockPass rest
termination_by l => l.length
decreasing_by
  · have hsome := Option.some_get h.2.2.2.2
    set fence := (findFence (rest.tail.tail.dropWhile isWordChar).tail).get h.2.2.2.2
    have hspec := findFence_spec _ fence.1 fence.2 hsome.symm
    have h1 : (rest.tail.tail.dropWhile isWordChar).tail.length
        = fence.1.length + 3 + fence.2.length := by
      rw [hspec]; simp only [List.length_append, List.length_cons]; omega
    have h2 : (rest.tail.tail.dropWhile isWordChar).tail.length
        ≤ rest.tail.tail.length := by
      have := List.Sublist.length_le
        (List.dropWhile_sublist (p := isWordChar) (l := rest.tail.tail))
      have ht := List.length_tail (rest.tail.tail.dropWhile isWordChar)
      omega
    have h3 : rest.tail.tail.length ≤ rest.length := by
      have := List.length_tail rest
      have := List.length_tail rest.tail
      omega
    simp only [List.length_cons]
    omega
  · simp only [List.length_cons]; omega

/-- The inline-code pass (script.js 206): a backtick, a nonempty run of
non-backticks, a closing backtick; on failure the scanner advances one
character. -/
def inlineCodePass : List Char → List Char
  | [] => []
  | c :: rest =>
      if c == tick ∧ rest.takeWhile ntick ≠ [] ∧ rest.dropWhile ntick ≠ [] then
        "<code>".data ++ rest.takeWhile ntick ++ "</code>".data
          ++ inlineCodePass (rest.dropWhile ntick).tail
      else c :: inlineCodePass rest
termination_by l => l.length
decreasing_by
  · have h1 := List.Sublist.length_le (List.dropWhile_sublist (p := ntick) (l := rest))
    have h2 := List.length_tail (rest.dropWhile ntick)
    simp only [List.length_cons]
    omega
  · simp only [List.length_cons]; omega

/-- The bold pass (script.js 209): two asterisks, a nonempty run of
non-asterisks, two closing asterisks; on failure the scanner advances one
character. -/
def boldPass : List Char → List Char
  | [] => []
  | c :: rest =>
      if c == '*' ∧ rest.head? = some '*' ∧ rest.tail.takeWhile nstar ≠ [] ∧
          (rest.tail.dropWhile nstar).tail.head? = some '*' then
        "<strong>".data ++ rest.tail.takeWhile nstar ++ "</strong>".data
          ++ boldPass (rest.tail.dropWhile nstar).tail.tail
      else c :: boldPass rest
termination_by l => l.length
decreasing_by
  · have h1 := List.Sublist.length_le (List.dropWhile_sublist (p := nstar) (l := rest.tail))
    have h2 := List.length_tail (rest.tail.dropWhile nstar)
    have h3 := List.length_tail (rest.tail.dropWhile nstar).tail
    have h4 := List.length_tail rest
    simp only [List.length_cons]
    omega
  · simp only [List.length_cons]; omega

/-- The italic pass (script.js 212): one asterisk, a nonempty run of
non-asterisks, a closing asterisk; on failure the scanner advances one
character. -/
def italicPass : List Char → List Char
  | [] => []
  | c :: rest =>
      if c == '*' ∧ rest.takeWhile nstar ≠ [] ∧ rest.dropWhile nstar ≠ [] then
        "<em>".data ++ rest.takeWhile nstar ++ "</em>".data
          ++ italicPass (rest.dropWhile nstar).tail
      else c :: italicPass rest
termination_by l => l.length
decreasing_by
  · have h1 := List.Sublist.length_le (List.dropWhile_sublist (p := nstar) (l := rest))
    have h2 := List.length_tail (rest.dropWhile nstar)
    simp only [List.length_cons]
    omega
  · simp only [List.length_cons]; omega

/-- The line-break pass (script.js 215). -/
def newlinePass : List Char → List Char
  | [] => []
  | c :: rest => (if c == '\n' then "<br>".data else [c]) ++ newlinePass rest

/-- formatMessageContent (script.js 196-218): escape, then the four
replacement passes in source order. -/
def formatMessageContent (s : List Char) : List Char :=
  newlinePass (italicPass (boldPass (inlineCodePass (codeBlockPass (escapeHtml s)))))

/-- The tags the formatter itself inserts: the pre/code opener with its
language word, and the fixed code/strong/em/br tags. -/
inductive GenTag : List Char → Prop
  | preOpenTag (lang : List Char) (h : ∀ c ∈ lang, isWordChar c = true) :
      GenTag (preOpen lang)
  | preCloseTag : GenTag "</code></pre>".data
  | codeOpenTag : GenTag "<code>".data
  | codeCloseTag : GenTag "</code>".data
  | strongOpenTag : GenTag "<strong>".data
  | strongCloseTag : GenTag "</strong>".data
  | emOpenTag : GenTag "<em>".data
  | emCloseTag : GenTag "</em>".data
  | brTag : GenTag "<br>".data

/-- Strings in which every < and > lies inside a formatter-generated tag: a
concatenation of plain non-angle characters and whole generated tags. -/
inductive SafeChunks : List Char → Prop
  | nil : SafeChunks []
  | plain (c : Char) (rest : List Char) (h1 : c ≠ '<') (h2 : c ≠ '>')
      (h : SafeChunks rest) : SafeChunks (c :: rest)
  | tag (t rest : List Char) (hg : GenTag t) (h : SafeChunks rest) :
      SafeChunks (t ++ rest)

/-- Turn a decided Boolean scan of a character list into the pointwise fact. -/
theorem allChars {P : Char → Prop} [DecidablePred P] {l : List Char}
    (h : (l.all fun c => decide (P c)) = true) : ∀ c ∈ l, P c :=
  fun c hc => of_decide_eq_true (List.all_eq_true.mp h c hc)

/-- Every generated tag starts with <. -/
theorem gen_head {t : List Char} (g : GenTag t) : ∃ r, t = '<' :: r := by
  cases g <;> exact ⟨_, rfl⟩

/-- No generated tag contains a backtick, an asterisk or a newline, so the
later passes never split one. -/
theorem gen_chars {t : List Char} (g : GenTag t) :
    ∀ c ∈ t, c ≠ tick ∧ c ≠ '*' ∧ c ≠ '\n' := by
  cases g with
  | preOpenTag lang hl =>
      intro c hc
      rw [preOpen] at hc
      rcases List.mem_append.mp hc with hc1 | hc2
      · rcases List.mem_append.mp hc1 with ha | hb
        · exact allChars (P := fun c => c ≠ tick ∧ c ≠ '*' ∧ c ≠ '\n') (by decide) c ha
        · have hw := hl c hb
          refine ⟨?_, ?_, ?_⟩ <;> rintro rfl <;> exact absurd hw (by decide)
      · exact allChars (P := fun c => c ≠ tick ∧ c ≠ '*' ∧ c ≠ '\n') (by decide) c hc2
  | preCloseTag => exact allChars (P := fun c => c ≠ tick ∧ c ≠ '*' ∧ c ≠ '\n') (by decide)
  | codeOpenTag => exact allChars (P := fun c => c ≠ tick ∧ c ≠ '*' ∧ c ≠ '\n') (by decide)
  | codeCloseTag => exact allChars (P := fun c => c ≠ tick ∧ c ≠ '*' ∧ c ≠ '\n') (by decide)
  | strongOpenTag => exact allChars (P := fun c => c ≠ tick ∧ c ≠ '*' ∧ c ≠ '\n') (by decide)
  | strongCloseTag => exact allChars (P := fun c => c ≠ tick ∧ c ≠ '*' ∧ c ≠ '\n') (by decide)
  | emOpenTag => exact allChars (P := fun c => c ≠ tick ∧ c ≠ '*' ∧ c ≠ '\n') (by decide)
  | emCloseTag => exact allChars (P := fun c => c ≠ tick ∧ c ≠ '*' ∧ c ≠ '\n') (by decide)
  | brTag => exact allChars (P := fun c => c ≠ tick ∧ c ≠ '*' ∧ c ≠ '\n') (by decide)

/-- Safe chunks are closed under concatenation. -/
theorem safe_append {a b : List Char} (ha : SafeChunks a) (hb : SafeChunks b) :
    SafeChunks (a ++ b) := by
  induction ha with
  | nil => simpa using hb
  | plain c rest h1 h2 h ih => exact .plain c _ h1 h2 ih
  | tag t rest hg h ih =>
      rw [List.append_assoc]
      exact .tag t _ hg ih

/-- A string without angle characters is trivially safe. -/
theorem safe_of_noAngle {l : List Char} (h : ∀ c ∈ l, c ≠ '<' ∧ c ≠ '>') :
    SafeChunks l := by
  induction l with
  | nil => exact .nil
  | cons c rest ih =>
      exact .plain c rest (h c (by simp)).1 (h c (by simp)).2
        (ih fun d hd => h d (by simp [hd]))

/-- Inversion at a head character that is not <: it is a plain character (no
tag starts with anything else) and the tail is safe. -/
theorem safe_cons_elim {c : Char} {rest : List Char}
    (h : SafeChunks (c :: rest)) (hc : c ≠ '<') :
    c ≠ '>' ∧ SafeChunks rest := by
  generalize hs : c :: rest = s at h
  induction h with
  | nil => exact absurd hs (by simp)
  | plain d rest2 h1 h2 hrest ih =>
      injection hs with ha hb
      subst ha; subst hb
      exact ⟨h2, hrest⟩
  | tag t rest2 hg hrest ih =>
      obtain ⟨r, rfl⟩ := gen_head hg
      rw [List.cons_append] at hs
      injection hs with ha hb
      exact absurd ha hc

/-- Splitting a safe string by takeWhile / dropWhile at a predicate every tag
character satisfies yields two safe strings: the cut never falls inside a
tag. -/
theorem safe_split (p : Char → Bool)
    (hp : ∀ t, GenTag t → ∀ c ∈ t, p c = true) {s : List Char}
    (h : SafeChunks s) :
    SafeChunks (s.takeWhile p) ∧ SafeChunks (s.dropWhile p) := by
  induction h with
  | nil => exact ⟨.nil, .nil⟩
  | plain c rest h1 h2 hrest ih =>
      by_cases hc : p c
      · rw [List.takeWhile_cons_of_pos hc, List.dropWhile_cons_of_pos hc]
        exact ⟨.plain c _ h1 h2 ih.1, ih.2⟩
      · rw [List.takeWhile_cons_of_neg hc, List.dropWhile_cons_of_neg hc]
        exact ⟨.nil, .plain c _ h1 h2 hrest⟩
  | tag t rest hg hrest ih =>
      have hall : ∀ c ∈ t, p c := hp t hg
      rw [List.takeWhile_append_of_pos hall, List.dropWhile_append_of_pos hall]
      exact ⟨.tag t _ hg ih.1, ih.2⟩

/-- The head of a nonempty dropWhile fails the predicate. -/
theorem dropWhile_head_false {p : Char → Bool} {l : List Char} {c : Char}
    {cs : List Char} (h : l.dropWhile p = c :: cs) : p c = false := by
  have hw := List.head_dropWhile_not p l
  rw [h] at hw
  simpa using hw

/-- The characters of the trimmed string come from the original. -/
theorem trimList_subset (l : List Char) : ∀ c ∈ trimList l, c ∈ l := by
  intro c hc
  rw [trimList] at hc
  have h1 := List.mem_reverse.mp hc
  have h2 := List.dropWhile_subset _ h1
  have h3 := List.mem_reverse.mp h2
  exact List.dropWhile_subset _ h3

/-- The tail is contained in the list. -/
theorem tail_sub (l : List Char) : ∀ d ∈ l.tail, d ∈ l := by
  intro d hd
  cases l with
  | nil => simp at hd
  | cons a b => exact List.mem_cons_of_mem a hd

/-- The escaped text contains no angle character at all. -/
theorem escapeHtml_no_angle (s : List Char) :
    ∀ c ∈ escapeHtml s, c ≠ '<' ∧ c ≠ '>' := by
  induction s with
  | nil => intro c hc; simp [escapeHtml] at hc
  | cons c rest ih =>
      intro d hd
      rw [escapeHtml] at hd
      rcases List.mem_append.mp hd with h1 | h2
      · by_cases ha : c == '&'
        · rw [if_pos ha] at h1
          exact allChars (P := fun c => c ≠ '<' ∧ c ≠ '>') (by decide) d h1
        · rw [if_neg ha] at h1
          by_cases hl : c == '<'
          · rw [if_pos hl] at h1
            exact allChars (P := fun c => c ≠ '<' ∧ c ≠ '>') (by decide) d h1
          · rw [if_neg hl] at h1
            by_cases hg : c == '>'
            · rw [if_pos hg] at h1
              exact allChars (P := fun c => c ≠ '<' ∧ c ≠ '>') (by decide) d h1
            · rw [if_neg hg] at h1
              have hdc : d = c := by simpa using h1
              subst hdc
              exact ⟨by simpa using hl, by simpa using hg⟩
      · exact ih d h2

/-- The inline-code scan copies a backtick-free block verbatim. -/
theorem inlineCodePass_append {t r : List Char} (h : ∀ c ∈ t, c ≠ tick) :
    inlineCodePass (t ++ r) = t ++ inlineCodePass r := by
  induction t with
  | nil => rfl
  | cons c t2 ih =>
      have hcne : ¬(c == tick ∧ (t2 ++ r).takeWhile ntick ≠ [] ∧
          (t2 ++ r).dropWhile ntick ≠ []) := by
        rintro ⟨h1, -, -⟩
        exact h c (by simp) (by simpa using h1)
      rw [List.cons_append, inlineCodePass, if_neg hcne,
        ih (fun d hd => h d (by simp [hd]))]
      rfl

/-- The bold scan copies an asterisk-free block verbatim. -/
theorem boldPass_append {t r : List Char} (h : ∀ c ∈ t, c ≠ '*') :
    boldPass (t ++ r) = t ++ boldPass r := by
  induction t with
  | nil => rfl
  | cons c t2 ih =>
      have hcne : ¬(c == '*' ∧ (t2 ++ r).head? = some '*' ∧
          (t2 ++ r).tail.takeWhile nstar ≠ [] ∧
          ((t2 ++ r).tail.dropWhile nstar).tail.head? = some '*') := by
        rintro ⟨h1, -, -, -⟩
        exact h c (by simp) (by simpa using h1)
      rw [List.cons_append, boldPass, if_neg hcne,
        ih (fun d hd => h d (by simp [hd]))]
      rfl

/-- The italic scan copies an asterisk-free block verbatim. -/
theorem italicPass_append {t r : List Char} (h : ∀ c ∈ t, c ≠ '*') :
    italicPass (t ++ r) = t ++ italicPass r := by
  induction t with
  | nil => rfl
  | cons c t2 ih =>
      have hcne : ¬(c == '*' ∧ (t2 ++ r).takeWhile nstar ≠ [] ∧
          (t2 ++ r).dropWhile nstar ≠ []) := by
        rintro ⟨h1, -, -⟩
        exact h c (by simp) (by simpa using h1)
      rw [List.cons_append, italicPass, if_neg hcne,
        ih (fun d hd => h d (by simp [hd]))]
      rfl

/-- The line-break pass copies a newline-free block verbatim. -/
theorem newlinePass_append {t r : List Char} (h : ∀ c ∈ t, c ≠ '\n') :
    newlinePass (t ++ r) = t ++ newlinePass r := by
  induction t with
  | nil => rfl
  | cons c t2 ih =>
      have hcn : ¬(c == '\n') = true := by simpa using h c (by simp)
      rw [List.cons_append, newlinePass, if_neg hcn,
        ih (fun d hd => h d (by simp [hd]))]
      rfl

/-- The line-break pass preserves safety: a newline becomes a br tag, tags
are copied whole. -/
theorem newlinePass_safe {s : List Char} (h : SafeChunks s) :
    SafeChunks (newlinePass s) := by
  induction h with
  | nil => exact .nil
  | plain c rest h1 h2 hrest ih =>
      rw [newlinePass]
      by_cases hc : c == '\n'
      · rw [if_pos hc]
        exact .tag _ _ .brTag ih
      · rw [if_neg hc]
        exact .plain c _ h1 h2 ih
  | tag t rest hg hrest ih =>
      rw [newlinePass_append (fun d hd => (gen_chars hg d hd).2.2)]
      exact .tag t _ hg ih

/-- The inline-code pass preserves safety: splits happen only at backticks,
which never sit inside a tag, and the inserted code tags are generated ones. -/
theorem inlineCodePass_safe_aux :
    ∀ (n : Nat) (s : List Char), s.length ≤ n → SafeChunks s →
      SafeChunks (inlineCodePass s) := by
  intro n
  induction n with
  | zero =>
      intro s hs h
      have hnil : s = [] := List.length_eq_zero.mp (Nat.le_zero.mp hs)
      subst hnil
      rw [inlineCodePass]
      exact .nil
  | succ n ih =>
      intro s hs h
      cases h with
      | nil => rw [inlineCodePass]; exact .nil
      | plain c rest h1 h2 hrest =>
          by_cases hcond : c == tick ∧ rest.takeWhile ntick ≠ [] ∧
              rest.dropWhile ntick ≠ []
          · rw [inlineCodePass, if_pos hcond]
            obtain ⟨hc, hta, hdr⟩ := hcond
            have hsplit := safe_split ntick
              (fun t hg d hd => by simpa [ntick] using (gen_chars hg d hd).1) hrest
            obtain ⟨x, after, hxe⟩ : ∃ x after, rest.dropWhile ntick = x :: after := by
              cases hd2 : rest.dropWhile ntick with
              | nil => exact absurd hd2 hdr
              | cons a b => exact ⟨a, b, rfl⟩
            have hx : ntick x = false := dropWhile_head_false hxe
            have hxlt : x ≠ '<' := by
              have hxt : x = tick := by simpa [ntick] using hx
              subst hxt; decide
            have hsa : SafeChunks after := (safe_cons_elim (hxe ▸ hsplit.2) hxlt).2
            have hlen : after.length ≤ n := by
              have hl1 := List.Sublist.length_le
                (List.dropWhile_sublist (p := ntick) (l := rest))
              rw [hxe] at hl1
              simp only [List.length_cons] at hl1 hs
              omega
            have htail : (rest.dropWhile ntick).tail = after := by rw [hxe]; rfl
            rw [htail]
            simp only [List.append_assoc]
            exact .tag _ _ .codeOpenTag
              (safe_append hsplit.1 (.tag _ _ .codeCloseTag (ih after hlen hsa)))
          · rw [inlineCodePass, if_neg hcond]
            refine .plain c _ h1 h2 (ih rest ?_ hrest)
            simp only [List.length_cons] at hs
            omega
      | tag t rest2 hg hrest =>
          rw [inlineCodePass_append (fun d hd => (gen_chars hg d hd).1)]
          refine .tag t _ hg (ih rest2 ?_ hrest)
          obtain ⟨r, rfl⟩ := gen_head hg
          simp only [List.length_append, List.length_cons] at hs
          omega

/-- Safety preservation for the inline-code pass. -/
theorem inlineCodePass_safe {s : List Char} (h : SafeChunks s) :
    SafeChunks (inlineCodePass s) :=
  inlineCodePass_safe_aux s.length s le_rfl h

/-- The italic pass preserves safety: splits happen only at asterisks, which
never sit inside a tag, and the inserted em tags are generated ones. -/
theorem italicPass_safe_aux :
    ∀ (n : Nat) (s : List Char), s.length ≤ n → SafeChunks s →
      SafeChunks (italicPass s) := by
  intro n
  induction n with
  | zero =>
      intro s hs h
      have hnil : s = [] := List.length_eq_zero.mp (Nat.le_zero.mp hs)
      subst hnil
      rw [italicPass]
      exact .nil
  | succ n ih =>
      intro s hs h
      cases h with
      | nil => rw [italicPass]; exact .nil
      | plain c rest h1 h2 hrest =>
          by_cases hcond : c == '*' ∧ rest.takeWhile nstar ≠ [] ∧
              rest.dropWhile nstar ≠ []
          · rw [italicPass, if_pos hcond]
            obtain ⟨hc, hta, hdr⟩ := hcond
            have hsplit := safe_split nstar
              (fun t hg d hd => by simpa [nstar] using (gen_chars hg d hd).2.1) hrest
            obtain ⟨x, after, hxe⟩ : ∃ x after, rest.dropWhile nstar = x :: after := by
              cases hd2 : rest.dropWhile nstar with
              | nil => exact absurd hd2 hdr
              | cons a b => exact ⟨a, b, rfl⟩
            have hx : nstar x = false := dropWhile_head_false hxe
            have hxlt : x ≠ '<' := by
              have hxt : x = '*' := by simpa [nstar] using hx
              subst hxt; decide
            have hsa : SafeChunks after := (safe_cons_elim (hxe ▸ hsplit.2) hxlt).2
            have hlen : after.length ≤ n := by
              have hl1 := List.Sublist.length_le
                (List.dropWhile_sublist (p := nstar) (l := rest))
              rw [hxe] at hl1
              simp only [List.length_cons] at hl1 hs
              omega
            have htail : (rest.dropWhile nstar).tail = after := by rw [hxe]; rfl
            rw [htail]
            simp only [List.append_assoc]
            exact .tag _ _ .emOpenTag
              (safe_append hsplit.1 (.tag _ _ .emCloseTag (ih after hlen hsa)))
          · rw [italicPass, if_neg hcond]
            refine .plain c _ h1 h2 (ih rest ?_ hrest)
            simp only [List.length_cons] at hs
            omega
      | tag t rest2 hg hrest =>
          rw [italicPass_append (fun d hd => (gen_chars hg d hd).2.1)]
          refine .tag t _ hg (ih rest2 ?_ hrest)
          obtain ⟨r, rfl⟩ := gen_head hg
          simp only [List.length_append, List.length_cons] at hs
          omega

/-- Safety preservation for the italic pass. -/
theorem italicPass_safe {s : List Char} (h : SafeChunks s) :
    SafeChunks (italicPass s) :=
  italicPass_safe_aux s.length s le_rfl h

/-- The bold pass preserves safety: the opener needs two asterisks, the run
is cut at asterisks only, and the inserted strong tags are generated ones. -/
theorem boldPass_safe_aux :
    ∀ (n : Nat) (s : List Char), s.length ≤ n → SafeChunks s →
      SafeChunks (boldPass s) := by
  intro n
  induction n with
  | zero =>
      intro s hs h
      have hnil : s = [] := List.length_eq_zero.mp (Nat.le_zero.mp hs)
      subst hnil
      rw [boldPass]
      exact .nil
  | succ n ih =>
      intro s hs h
      cases h with
      | nil => rw [boldPass]; exact .nil
      | plain c rest h1 h2 hrest =>
          by_cases hcond : c == '*' ∧ rest.head? = some '*' ∧
              rest.tail.takeWhile nstar ≠ [] ∧
              (rest.tail.dropWhile nstar).tail.head? = some '*'
          · rw [boldPass, if_pos hcond]
            obtain ⟨hc, hhd, hta, hcl⟩ := hcond
            obtain ⟨d, rest2, rfl⟩ : ∃ d rest2, rest = d :: rest2 := by
              cases rest with
              | nil => simp at hhd
              | cons a b => exact ⟨a, b, rfl⟩
            have hd : d = '*' := by simpa using hhd
            have hrest2 : SafeChunks rest2 :=
              (safe_cons_elim hrest (by subst hd; decide)).2
            have hsplit := safe_split nstar
              (fun t hg e he => by simpa [nstar] using (gen_chars hg e he).2.1) hrest2
            have htl : (d :: rest2).tail = rest2 := rfl
            rw [htl] at hta hcl ⊢
            obtain ⟨e1, dtail, hxe⟩ : ∃ e1 dtail,
                rest2.dropWhile nstar = e1 :: dtail := by
              cases hd2 : rest2.dropWhile nstar with
              | nil => rw [hd2] at hcl; simp at hcl
              | cons a b => exact ⟨a, b, rfl⟩
            obtain ⟨e2, after, rfl⟩ : ∃ e2 after, dtail = e2 :: after := by
              cases dtail with
              | nil => rw [hxe] at hcl; simp at hcl
              | cons a b => exact ⟨a, b, rfl⟩
            have he2 : e2 = '*' := by
              rw [hxe] at hcl; simpa using hcl
            have he1 : e1 = '*' := by
              have := dropWhile_head_false hxe
              simpa [nstar] using this
            have hdropsafe : SafeChunks (e1 :: e2 :: after) := hxe ▸ hsplit.2
            have hsafe2 : SafeChunks (e2 :: after) :=
              (safe_cons_elim hdropsafe (by subst he1; decide)).2
            have hsa : SafeChunks after :=
              (safe_cons_elim hsafe2 (by subst he2; decide)).2
            have hlen : after.length ≤ n := by
              have hl1 := List.Sublist.length_le
                (List.dropWhile_sublist (p := nstar) (l := rest2))
              rw [hxe] at hl1
              simp only [List.length_cons] at hl1 hs
              omega
            have htail2 : (rest2.dropWhile nstar).tail.tail = after := by
              rw [hxe]; rfl
            rw [htail2]
            simp only [List.append_assoc]
            exact .tag _ _ .strongOpenTag
              (safe_append hsplit.1 (.tag _ _ .strongCloseTag (ih after hlen hsa)))
          · rw [boldPass, if_neg hcond]
            refine .plain c _ h1 h2 (ih rest ?_ hrest)
            simp only [List.length_cons] at hs
            omega
      | tag t rest2 hg hrest =>
          rw [boldPass_append (fun d hd => (gen_chars hg d hd).2.1)]
          refine .tag t _ hg (ih rest2 ?_ hrest)
          obtain ⟨r, rfl⟩ := gen_head hg
          simp only [List.length_append, List.length_cons] at hs
          omega

/-- Safety preservation for the bold pass. -/
theorem boldPass_safe {s : List Char} (h : SafeChunks s) :
    SafeChunks (boldPass s) :=
  boldPass_safe_aux s.length s le_rfl h

/-- The code-block pass turns an angle-free input into a safe string: the
copied pieces (language word, trimmed body, plain characters) carry no angle
character, and every inserted tag is a generated one. -/
theorem codeBlockPass_safe_aux :
    ∀ (n : Nat) (l : List Char), l.length ≤ n →
      (∀ c ∈ l, c ≠ '<' ∧ c ≠ '>') → SafeChunks (codeBlockPass l) := by
  intro n
  induction n with
  | zero =>
      intro l hl hna
      have hnil : l = [] := List.length_eq_zero.mp (Nat.le_zero.mp hl)
      subst hnil
      rw [codeBlockPass]
      exact .nil
  | succ n ih =>
      intro l hl hna
      cases l with
      | nil => rw [codeBlockPass]; exact .nil
      | cons c rest =>
          by_cases hcond : c == tick ∧ rest.head? = some tick ∧
              rest.tail.head? = some tick ∧
              (rest.tail.tail.dropWhile isWordChar).head? = some '\n' ∧
              (findFence (rest.tail.tail.dropWhile isWordChar).tail).isSome
          · rw [codeBlockPass, dif_pos hcond]
            obtain ⟨pr, hpr⟩ := Option.isSome_iff_exists.mp hcond.2.2.2.2
            have hget : (findFence (rest.tail.tail.dropWhile isWordChar).tail).get
                hcond.2.2.2.2 = pr := by
              have h1 := (Option.some_get hcond.2.2.2.2).trans hpr
              injection h1
            rw [hget]
            have hspec := findFence_spec (rest.tail.tail.dropWhile isWordChar).tail
              pr.1 pr.2 hpr
            have hmem : ∀ d ∈ (rest.tail.tail.dropWhile isWordChar).tail,
                d ∈ c :: rest := by
              intro d hd
              have h1 := tail_sub _ d hd
              have h2 := List.dropWhile_subset _ h1
              have h3 := tail_sub _ d (tail_sub _ d h2)
              exact List.mem_cons_of_mem c h3
            have hafter_na : ∀ d ∈ pr.2, d ≠ '<' ∧ d ≠ '>' := by
              intro d hd
              refine hna d (hmem d ?_)
              rw [hspec]
              exact List.mem_append.mpr (Or.inr (by simp [hd]))
            have htrim_na : ∀ d ∈ trimList pr.1, d ≠ '<' ∧ d ≠ '>' := by
              intro d hd
              refine hna d (hmem d ?_)
              rw [hspec]
              exact List.mem_append.mpr (Or.inl (trimList_subset _ d hd))
            have hlang : ∀ e ∈ (if (rest.tail.tail.takeWhile isWordChar).isEmpty
                then "text".data else rest.tail.tail.takeWhile isWordChar),
                isWordChar e = true := by
              by_cases hemp : (rest.tail.tail.takeWhile isWordChar).isEmpty
              · rw [if_pos hemp]
                exact allChars (P := fun e => isWordChar e = true) (by decide)
              · rw [if_neg hemp]
                intro e he
                exact List.mem_takeWhile_imp he
            have hlen : pr.2.length ≤ n := by
              have hb : (rest.tail.tail.dropWhile isWordChar).tail.length
                  = pr.1.length + 3 + pr.2.length := by
                rw [hspec]
                simp only [List.length_append, List.length_cons]
                omega
              have t1 := List.length_tail rest
              have t2 := List.length_tail rest.tail
              have t3 := List.Sublist.length_le
                (List.dropWhile_sublist (p := isWordChar) (l := rest.tail.tail))
              have t4 := List.length_tail (rest.tail.tail.dropWhile isWordChar)
              simp only [List.length_cons] at hl
              omega
            simp only [List.append_assoc]
            exact .tag _ _ (GenTag.preOpenTag _ hlang)
              (safe_append (safe_of_noAngle htrim_na)
                (.tag _ _ .preCloseTag (ih pr.2 hlen hafter_na)))
          · rw [codeBlockPass, dif_neg hcond]
            refine .plain c _ (hna c (by simp)).1 (hna c (by simp)).2
              (ih rest ?_ (fun d hd => hna d (by simp [hd])))
            simp only [List.length_cons] at hl
            omega

/-- The code-block pass on an angle-free input yields a safe string. -/
theorem codeBlockPass_safe {l : List Char}
    (h : ∀ c ∈ l, c ≠ '<' ∧ c ≠ '>') : SafeChunks (codeBlockPass l) :=
  codeBlockPass_safe_aux l.length l le_rfl h

/-- C10: formatMessageContent escapes every markup character of its input —
the escaped text carries no < or > at all — and every < or > of the final
output lies inside a tag the formatter itself generated (the pre/code block
tags, code, strong, em, br), so no raw HTML from message content reaches the
rendered bubble. -/
theorem formatMessageContent_safe (s : List Char) :
    (∀ c ∈ escapeHtml s, c ≠ '<' ∧ c ≠ '>') ∧
    SafeChunks (formatMessageContent s) := by
  refine ⟨escapeHtml_no_angle s, ?_⟩
  rw [formatMessageContent]
  exact newlinePass_safe (italicPass_safe (boldPass_safe (inlineCodePass_safe
    (codeBlockPass_safe (escapeHtml_no_angle s)))))

end NaoAI
